import Mathlib

/-!
# Verification of the `dep-doc` snippet builder

A shallow embedding of the `dep_doc` crate (`src/lib.rs`): the macros
`package_import!`, `dep_doc!` and `dev_dep_doc!` assemble a TOML dependency
snippet from a package name, a package version, and an optional raw token
sequence spliced in via `stringify!`.

The macros operate on Rust token trees.  We model a token tree as either a
single lexeme (identifier, punctuation, or literal, carried as its text) or a
delimited group.  `stringify!` pretty-prints a token sequence from the tokens
alone: adjacent tokens are separated by one space, except that no space is
printed before a comma, and group delimiters enclose their content without
inner padding.  The original whitespace of the caller's source text is not
part of the token stream, so it cannot influence the expansion; we model that
layout separately (`rawText`) for the claims that are about it.
-/

namespace DepDoc

/-- The three Rust group delimiters. -/
inductive Delim where
  | paren
  | bracket
  | brace
deriving DecidableEq, Repr

/-- A Rust token tree: a single lexeme, or a delimited group of token trees. -/
inductive TokenTree where
  | leaf : String → TokenTree
  | group : Delim → List TokenTree → TokenTree
deriving Repr

/-- Opening delimiter text. -/
def Delim.openText : Delim → String
  | .paren => "("
  | .bracket => "["
  | .brace => "\x7b"

/-- Closing delimiter text. -/
def Delim.closeText : Delim → String
  | .paren => ")"
  | .bracket => "]"
  | .brace => "\x7d"

/-- Is this token a lone comma?  `stringify!` prints no space before it. -/
def isComma : TokenTree → Bool
  | .leaf s => s = ","
  | _ => false

mutual

/-- Printed form of one token tree, as `stringify!` renders it. -/
def stringifyTok : TokenTree → String
  | .leaf s => s
  | .group d ts => d.openText ++ stringify ts ++ d.closeText

/-- Printed form of a token sequence, as `stringify!` renders it: single
spaces between tokens, none before a comma. -/
def stringify : List TokenTree → String
  | [] => ""
  | [t] => stringifyTok t
  | t :: t' :: ts =>
      stringifyTok t ++ (if isComma t' then "" else " ") ++ stringify (t' :: ts)

end

/-- The `@inner` arms of `package_import!` (src/lib.rs, lines 144-162): with no
extra tokens the expansion is `<name> = "<version>"`; with a non-empty extra
token sequence it is `<name> = { version = "<version>", <extra> }` where
`<extra>` is the `stringify!` rendering of the tokens. -/
def package_import (name version : String) (extra : List TokenTree) : String :=
  match extra with
  | [] => name ++ " = \"" ++ version ++ "\""
  | _ :: _ =>
      name ++ " = \x7b version = \"" ++ version ++ "\", " ++
        stringify extra ++ " \x7d"

/-- The macro `dep_doc!` (src/lib.rs, lines 104-112): the import line fenced as a TOML
code block under the `[dependencies]` header. -/
def dep_doc (name version : String) (extra : List TokenTree) : String :=
  "```TOML\n[dependencies]\n" ++ package_import name version extra ++ "\n```"

/-- The macro `dev_dep_doc!` (src/lib.rs, lines 131-139): the import line fenced as a
TOML code block under the `[dev-dependencies]` header. -/
def dev_dep_doc (name version : String) (extra : List TokenTree) : String :=
  "```TOML\n[dev-dependencies]\n" ++ package_import name version extra ++ "\n```"

/-- The spec's predicate `extra.startsWithPathKey()`: the extra token sequence
begins with a `path` key.  (Stated from the spec's words; the macro in
src/lib.rs has no arm inspecting it.) -/
def startsWithPathKey : List TokenTree → Bool
  | TokenTree.leaf "path" :: _ => true
  | _ => false

/-- A caller-side token stream: each token together with the number of
whitespace characters written before it in the caller's source text.  Macro
expansion receives only the tokens; the layout exists only in the source
text. -/
def SpacedTokens : Type := List (TokenTree × Nat)

/-- Forget the layout, keeping the token sequence the macro receives. -/
def eraseLayout (e : List (TokenTree × Nat)) : List TokenTree :=
  e.map Prod.fst

/-- The macro `package_import!` as invoked on a caller-side token stream: expansion sees
the tokens only. -/
def package_import_src (name version : String)
    (e : List (TokenTree × Nat)) : String :=
  package_import name version (eraseLayout e)

/-- A run of `k` space characters. -/
def spaces (k : Nat) : String :=
  String.mk (List.replicate k ' ')

/-- The caller's original source text for a token stream: each token preceded
by the whitespace the caller wrote. -/
def rawText : List (TokenTree × Nat) → String
  | [] => ""
  | (t, k) :: ts => spaces k ++ stringifyTok t ++ rawText ts

/-- Substring containment: `pat` occurs contiguously inside `s`. -/
def strContains (s pat : String) : Prop :=
  pat.data <:+: s.data

instance (s pat : String) : Decidable (strContains s pat) :=
  List.decidableInfix pat.data s.data

/-! ## General helper lemmas -/

/-- A pattern sitting between two context strings is a substring. -/
theorem strContains_append3 (a pat b : String) :
    strContains ((a ++ pat) ++ b) pat :=
  ⟨a.data, b.data, by simp⟩

/-- A string ending in a non-empty piece is non-empty. -/
theorem append_ne_empty_of_right (a b : String) (hb : b ≠ "") :
    a ++ b ≠ "" := by
  intro h
  apply hb
  apply String.ext
  have hd := congrArg String.data h
  rw [String.data_append] at hd
  exact (List.append_eq_nil.mp hd).2

/-- An infix of a concatenation lies in the left part, lies in the right part,
or straddles the border: a non-empty suffix of the left part glued to a
non-empty prefix of the right part. -/
theorem isInfix_append_split {α : Type} {l xs ys : List α}
    (h : l <:+: xs ++ ys) :
    l <:+: xs ∨ l <:+: ys ∨
      ∃ l₁ l₂, l = l₁ ++ l₂ ∧ l₁ ≠ [] ∧ l₂ ≠ [] ∧ l₁ <:+ xs ∧ l₂ <+: ys := by
  obtain ⟨s, t, hst⟩ := h
  rw [List.append_assoc] at hst
  rcases List.append_eq_append_iff.mp hst with ⟨a, hxs, hmid⟩ | ⟨c, _, hys⟩
  · rcases List.append_eq_append_iff.mp hmid with ⟨b, ha, _⟩ | ⟨d, hl, hys⟩
    · refine Or.inl ⟨s, b, ?_⟩
      rw [hxs, ha, List.append_assoc]
    · rcases eq_or_ne a [] with rfl | hane
      · refine Or.inr (Or.inl ⟨[], t, ?_⟩)
        rw [hys, hl, List.nil_append, List.nil_append]
      · rcases eq_or_ne d [] with rfl | hdne
        · refine Or.inl ⟨s, [], ?_⟩
          rw [hxs, hl, List.append_nil, List.append_nil]
        · exact Or.inr (Or.inr ⟨a, d, hl, hane, hdne, ⟨s, hxs.symm⟩, ⟨t, hys.symm⟩⟩)
  · refine Or.inr (Or.inl ⟨c, t, ?_⟩)
    rw [hys, List.append_assoc]

/-- If no non-empty initial segment of `pat` is a suffix of `P`, then no
non-empty prefix of `pat` is a suffix of `P`. -/
theorem no_affix_of_take {α : Type} {pat P : List α}
    (hk : ∀ k, k < pat.length → ¬ (pat.take (k + 1)) <:+ P) :
    ∀ l, l ≠ [] → l <+: pat → ¬ l <:+ P := by
  intro l hne hpre hsuf
  have hlen := hpre.length_le
  have htake : l = pat.take l.length := by
    have := List.prefix_iff_eq_take.mp hpre
    simpa using this
  have hpos : 0 < l.length := List.length_pos.mpr hne
  have hlt : l.length - 1 < pat.length := by omega
  apply hk (l.length - 1) hlt
  have h1 : l.length - 1 + 1 = l.length := by omega
  rw [h1, ← htake]
  exact hsuf

/-- A pattern cannot occur in `P ++ (M ++ S)` when it occurs in none of the
three parts and cannot straddle either border. -/
theorem not_contains_wrap {α : Type} {pat P S : List α} (M : List α)
    (hP : ¬ pat <:+: P) (hS : ¬ pat <:+: S)
    (hPs : ∀ l, l ≠ [] → l <+: pat → ¬ l <:+ P)
    (hSp : ∀ l, l ≠ [] → l <+: S → ¬ l <:+ pat)
    (hM : ¬ pat <:+: M) :
    ¬ pat <:+: P ++ (M ++ S) := by
  intro h
  rcases isInfix_append_split h with h1 | h2 | ⟨l₁, l₂, heq, hne₁, hne₂, hsuf, _⟩
  · exact hP h1
  · rcases isInfix_append_split h2 with g1 | g2 | ⟨m₁, m₂, geq, _, gne₂, _, gpre⟩
    · exact hM g1
    · exact hS g2
    · exact hSp m₂ gne₂ gpre ⟨m₁, geq.symm⟩
  · exact hPs l₁ hne₁ ⟨l₂, heq.symm⟩ hsuf

example : package_import "tokio" "1.13.0" [] = "tokio = \"1.13.0\"" := rfl

example :
    package_import "tokio" "1.13.0"
      [.leaf "features", .leaf "=", .group .bracket [.leaf "\"macros\""]] =
    "tokio = \x7b version = \"1.13.0\", features = [\"macros\"] \x7d" := by
  simp [package_import, stringify, stringifyTok, isComma, Delim.openText,
    Delim.closeText]

example : stringify [.leaf "a", .leaf "b"] = "a b" := rfl

/-! ## Claims -/

/-- C2. For all non-empty name and version, `package_import` with no extra
tokens expands to the name, ` = "`, the version, and a closing quote; in
particular `package_import "tokio" "1.13.0" []` is `tokio = "1.13.0"`. -/
theorem c2_empty_extra (name version : String)
    (hn : name ≠ "") (hv : version ≠ "") :
    package_import name version [] = name ++ " = \"" ++ version ++ "\"" ∧
    package_import "tokio" "1.13.0" [] = "tokio = \"1.13.0\"" :=
  ⟨rfl, rfl⟩

theorem c2_empty_extra_witness :
    package_import "tokio" "1.13.0" [] =
      "tokio" ++ " = \"" ++ "1.13.0" ++ "\"" ∧
    package_import "tokio" "1.13.0" [] = "tokio = \"1.13.0\"" :=
  c2_empty_extra "tokio" "1.13.0" (by decide) (by decide)

/-- C3. For every non-empty extra token sequence that does not begin with
a `path` key, the expansion is `<name> = { version = "<version>", <extra> }`:
it contains the text `version = "<version>"` and the verbatim extra text
inside one inline table; in particular for `features = ["macros"]` on
`tokio`/`1.13.0` it is `tokio = { version = "1.13.0", features = ["macros"] }`. -/
theorem c3_nonpath_extra (name version : String)
    (extra : List TokenTree) (hne : extra ≠ [])
    (hpath : startsWithPathKey extra = false) :
    package_import name version extra =
      name ++ " = \x7b version = \"" ++ version ++ "\", " ++
        stringify extra ++ " \x7d" ∧
    strContains (package_import name version extra)
      ("version = \"" ++ version ++ "\"") ∧
    strContains (package_import name version extra) (stringify extra) ∧
    package_import "tokio" "1.13.0"
      [.leaf "features", .leaf "=", .group .bracket [.leaf "\"macros\""]] =
      "tokio = \x7b version = \"1.13.0\", features = [\"macros\"] \x7d" := by
  cases extra with
  | nil => exact absurd rfl hne
  | cons t ts =>
    refine ⟨rfl, ?_, ?_, ?_⟩
    · have hshape : package_import name version (t :: ts) =
          ((name ++ " = \x7b ") ++ ("version = \"" ++ version ++ "\"")) ++
            (", " ++ stringify (t :: ts) ++ " \x7d") := by
        apply String.ext
        have m1 : (" = \x7b version = \"" : String).data =
            (" = \x7b " : String).data ++ ("version = \"" : String).data := rfl
        have m2 : ("\", " : String).data =
            ("\"" : String).data ++ (", " : String).data := rfl
        simp [package_import, m1, m2]
      rw [hshape]
      exact strContains_append3 _ _ _
    · have hshape : package_import name version (t :: ts) =
          ((name ++ " = \x7b version = \"" ++ version ++ "\", ") ++
            stringify (t :: ts)) ++ " \x7d" := rfl
      rw [hshape]
      exact strContains_append3 _ _ _
    · simp [package_import, stringify, stringifyTok, isComma, Delim.openText,
        Delim.closeText]

theorem c3_nonpath_extra_witness :
    package_import "tokio" "1.13.0"
        [.leaf "features", .leaf "=", .group .bracket [.leaf "\"macros\""]] =
      "tokio" ++ " = \x7b version = \"" ++ "1.13.0" ++ "\", " ++
        stringify [.leaf "features", .leaf "=",
          .group .bracket [.leaf "\"macros\""]] ++ " \x7d" ∧
    strContains
      (package_import "tokio" "1.13.0"
        [.leaf "features", .leaf "=", .group .bracket [.leaf "\"macros\""]])
      ("version = \"" ++ "1.13.0" ++ "\"") ∧
    strContains
      (package_import "tokio" "1.13.0"
        [.leaf "features", .leaf "=", .group .bracket [.leaf "\"macros\""]])
      (stringify [.leaf "features", .leaf "=",
        .group .bracket [.leaf "\"macros\""]]) ∧
    package_import "tokio" "1.13.0"
      [.leaf "features", .leaf "=", .group .bracket [.leaf "\"macros\""]] =
      "tokio = \x7b version = \"1.13.0\", features = [\"macros\"] \x7d" :=
  c3_nonpath_extra "tokio" "1.13.0"
    [.leaf "features", .leaf "=", .group .bracket [.leaf "\"macros\""]]
    (by simp) (by rfl)

/-- C5. `dep_doc` is exactly the `package_import` expansion wrapped in a
fenced TOML code block whose first line after the fence is `[dependencies]`,
and `dev_dep_doc` is the identical wrapping with `[dev-dependencies]`. -/
theorem c5_doc_wrappers (name version : String) (extra : List TokenTree) :
    dep_doc name version extra =
      "```TOML\n" ++ "[dependencies]" ++ "\n" ++
        package_import name version extra ++ "\n```" ∧
    dev_dep_doc name version extra =
      "```TOML\n" ++ "[dev-dependencies]" ++ "\n" ++
        package_import name version extra ++ "\n```" :=
  ⟨rfl, rfl⟩

/-- C7. The three builders are total functions producing a (non-empty)
string on every input, including empty name or version and arbitrary extra
tokens: there is no error branch. -/
theorem c7_total (name version : String) (extra : List TokenTree) :
    package_import name version extra ≠ "" ∧
    dep_doc name version extra ≠ "" ∧
    dev_dep_doc name version extra ≠ "" := by
  refine ⟨?_, ?_, ?_⟩
  · cases extra with
    | nil => exact append_ne_empty_of_right _ "\"" (by decide)
    | cons t ts => exact append_ne_empty_of_right _ " \x7d" (by decide)
  · exact append_ne_empty_of_right _ "\n```" (by decide)
  · exact append_ne_empty_of_right _ "\n```" (by decide)

/-- C8. The builders are deterministic pure functions: two invocations on
identical inputs give byte-identical outputs, and nothing besides the inputs
influences the result. -/
theorem c8_pure (n v n' v' : String) (e e' : List TokenTree)
    (hn : n = n') (hv : v = v') (he : e = e') :
    package_import n v e = package_import n' v' e' ∧
    dep_doc n v e = dep_doc n' v' e' ∧
    dev_dep_doc n v e = dev_dep_doc n' v' e' := by
  subst hn
  subst hv
  subst he
  exact ⟨rfl, rfl, rfl⟩

theorem c8_pure_witness :
    package_import "tokio" "1.13.0" [] = package_import "tokio" "1.13.0" [] ∧
    dep_doc "tokio" "1.13.0" [] = dep_doc "tokio" "1.13.0" [] ∧
    dev_dep_doc "tokio" "1.13.0" [] = dev_dep_doc "tokio" "1.13.0" [] :=
  c8_pure "tokio" "1.13.0" "tokio" "1.13.0" [] [] rfl rfl rfl

/-- C9. The dev-dependency output equals the dependency output with the
header line `[dependencies]` replaced by `[dev-dependencies]`: both share the
same fence prefix and, character for character, the same tail after the
header line. -/
theorem c9_header_swap (name version : String) (extra : List TokenTree) :
    ∃ tail : String,
      dep_doc name version extra =
        "```TOML\n" ++ "[dependencies]" ++ ("\n" ++ tail) ∧
      dev_dep_doc name version extra =
        "```TOML\n" ++ "[dev-dependencies]" ++ ("\n" ++ tail) :=
  ⟨package_import name version extra ++ "\n```", rfl, rfl⟩

/-- C1, counterexample. At extra tokens `path = "./local"` the expansion
keeps the version field: it is `tokio = { version = "1.13.0", path = "./local" }`,
not `tokio = { path = "./local" }`. -/
theorem c1_counterexample :
    package_import "tokio" "1.13.0"
        [.leaf "path", .leaf "=", .leaf "\"./local\""] =
      "tokio = \x7b version = \"1.13.0\", path = \"./local\" \x7d" ∧
    package_import "tokio" "1.13.0"
        [.leaf "path", .leaf "=", .leaf "\"./local\""] ≠
      "tokio = \x7b path = \"./local\" \x7d" := by
  constructor
  · rfl
  · intro h
    exact absurd h (by decide)

/-- C1, amended. An extra token sequence beginning with a `path` key is
spliced like any other non-empty extra sequence: the version field is not
omitted, and the expansion is
`<name> = { version = "<version>", path = "<p>" ... }`. -/
theorem c1_path_extra_keeps_version (name version : String)
    (extra : List TokenTree) (hpath : startsWithPathKey extra = true) :
    package_import name version extra =
      name ++ " = \x7b version = \"" ++ version ++ "\", " ++
        stringify extra ++ " \x7d" := by
  cases extra with
  | nil => exact absurd hpath (by decide)
  | cons t ts => rfl

theorem c1_path_extra_keeps_version_witness :
    package_import "tokio" "1.13.0"
        [.leaf "path", .leaf "=", .leaf "\"./local\""] =
      "tokio" ++ " = \x7b version = \"" ++ "1.13.0" ++ "\", " ++
        stringify [.leaf "path", .leaf "=", .leaf "\"./local\""] ++ " \x7d" :=
  c1_path_extra_keeps_version "tokio" "1.13.0"
    [.leaf "path", .leaf "=", .leaf "\"./local\""] (by rfl)

/-- C4, counterexample. The expansion is not selected by a
`startsWithPathKey` predicate: at extra tokens `path = "./l"` (a leading path
pair with nothing following) the output still carries the version field, so it
is neither of the two path shapes the claim lists for that case. -/
theorem c4_counterexample :
    startsWithPathKey [TokenTree.leaf "path", .leaf "=", .leaf "\"./l\""] =
      true ∧
    package_import "serde" "1.0.0"
        [.leaf "path", .leaf "=", .leaf "\"./l\""] =
      "serde = \x7b version = \"1.0.0\", path = \"./l\" \x7d" ∧
    package_import "serde" "1.0.0"
        [.leaf "path", .leaf "=", .leaf "\"./l\""] ≠
      "serde = \x7b path = \"./l\" \x7d" := by
  refine ⟨rfl, rfl, ?_⟩
  intro h
  exact absurd h (by decide)

/-- C4, amended. Every expansion has one of exactly two fixed shapes,
selected by the single predicate `extra.isEmpty()`:
`<name> = "<version>"` when the extra sequence is empty, and
`<name> = { version = "<version>", <extra> }` otherwise. -/
theorem c4_two_shapes (name version : String) (extra : List TokenTree) :
    (extra = [] ∧ package_import name version extra =
      name ++ " = \"" ++ version ++ "\"") ∨
    (extra ≠ [] ∧ package_import name version extra =
      name ++ " = \x7b version = \"" ++ version ++ "\", " ++
        stringify extra ++ " \x7d") := by
  cases extra with
  | nil => exact Or.inl ⟨rfl, rfl⟩
  | cons t ts => exact Or.inr ⟨by simp, rfl⟩

/-- C10. The extra tokens reach the expansion as a token stream: the
caller's layout is not part of it.  Two invocations whose token streams agree
produce identical output whatever whitespace the caller wrote, and the spliced
text is the canonical `stringify` rendering, which need not be byte-for-byte
the caller's source text. -/
theorem c10_layout_insensitive :
    (∀ (name version : String) (e₁ e₂ : List (TokenTree × Nat)),
        eraseLayout e₁ = eraseLayout e₂ →
        package_import_src name version e₁ =
          package_import_src name version e₂) ∧
    package_import_src "tokio" "1.13.0"
        [(.leaf "git", 0), (.leaf "=", 3), (.leaf "\"u\"", 1)] =
      "tokio = \x7b version = \"1.13.0\", git = \"u\" \x7d" ∧
    rawText [(.leaf "git", 0), (.leaf "=", 3), (.leaf "\"u\"", 1)] ≠
      stringify (eraseLayout
        [(.leaf "git", 0), (.leaf "=", 3), (.leaf "\"u\"", 1)]) := by
  refine ⟨?_, rfl, ?_⟩
  · intro name version e₁ e₂ h
    show package_import name version (eraseLayout e₁) =
      package_import name version (eraseLayout e₂)
    rw [h]
  · intro h
    exact absurd h (by decide)

/-- Character-level shape of the `dep_doc` output. -/
theorem dep_doc_data (name version : String) (extra : List TokenTree) :
    (dep_doc name version extra).data =
      ("```TOML\n[dependencies]\n" : String).data ++
        ((package_import name version extra).data ++
          ("\n```" : String).data) := by
  simp [dep_doc]

/-- Character-level shape of the `dev_dep_doc` output. -/
theorem dev_dep_doc_data (name version : String) (extra : List TokenTree) :
    (dev_dep_doc name version extra).data =
      ("```TOML\n[dev-dependencies]\n" : String).data ++
        ((package_import name version extra).data ++
          ("\n```" : String).data) := by
  simp [dev_dep_doc]

/-- The `[dev-dependencies]` header can enter a `dep_doc` output only through
the import line: the fixed fence and header text cannot produce it, nor can
any straddling of their borders. -/
theorem dep_doc_no_dev_header (name version : String) (extra : List TokenTree)
    (h : ¬ strContains (package_import name version extra)
      "[dev-dependencies]") :
    ¬ strContains (dep_doc name version extra) "[dev-dependencies]" := by
  intro hc
  have hc' : ("[dev-dependencies]" : String).data <:+:
      (dep_doc name version extra).data := hc
  rw [dep_doc_data] at hc'
  exact not_contains_wrap ((package_import name version extra).data)
    (by decide) (by decide)
    (no_affix_of_take (by decide)) (no_affix_of_take (by decide)) h hc'

/-- The `[dependencies]` header can enter a `dev_dep_doc` output only through
the import line: the fixed fence and header text cannot produce it, nor can
any straddling of their borders. -/
theorem dev_dep_doc_no_dep_header (name version : String)
    (extra : List TokenTree)
    (h : ¬ strContains (package_import name version extra) "[dependencies]") :
    ¬ strContains (dev_dep_doc name version extra) "[dependencies]" := by
  intro hc
  have hc' : ("[dependencies]" : String).data <:+:
      (dev_dep_doc name version extra).data := hc
  rw [dev_dep_doc_data] at hc'
  exact not_contains_wrap ((package_import name version extra).data)
    (by decide) (by decide)
    (no_affix_of_take (by decide)) (no_affix_of_take (by decide)) h hc'

/-- C6, counterexample. The two headers can appear in one output: a name
that itself contains `[dev-dependencies]` puts both headers into a single
`dep_doc` output. -/
theorem c6_counterexample :
    strContains (dep_doc "x[dev-dependencies]y" "1.0.0" [])
      "[dependencies]" ∧
    strContains (dep_doc "x[dev-dependencies]y" "1.0.0" [])
      "[dev-dependencies]" := by
  constructor
  · decide
  · decide

/-- C6, amended. Every `dep_doc` output contains `[dependencies]` and
every `dev_dep_doc` output contains `[dev-dependencies]`; an output contains
the other operation's header only when the embedded import line (built from
name, version and extra) itself contains it — never from the wrapping. -/
theorem c6_headers (name version : String) (extra : List TokenTree) :
    strContains (dep_doc name version extra) "[dependencies]" ∧
    strContains (dev_dep_doc name version extra) "[dev-dependencies]" ∧
    (¬ strContains (package_import name version extra) "[dev-dependencies]" →
      ¬ strContains (dep_doc name version extra) "[dev-dependencies]") ∧
    (¬ strContains (package_import name version extra) "[dependencies]" →
      ¬ strContains (dev_dep_doc name version extra) "[dependencies]") := by
  refine ⟨?_, ?_, dep_doc_no_dev_header name version extra,
    dev_dep_doc_no_dep_header name version extra⟩
  · show strContains (("```TOML\n" ++ "[dependencies]") ++
      ("\n" ++ (package_import name version extra ++ "\n```")))
      "[dependencies]"
    exact strContains_append3 _ _ _
  · show strContains (("```TOML\n" ++ "[dev-dependencies]") ++
      ("\n" ++ (package_import name version extra ++ "\n```")))
      "[dev-dependencies]"
    exact strContains_append3 _ _ _

theorem c6_headers_witness :
    strContains (dep_doc "tokio" "1.13.0" []) "[dependencies]" ∧
    ¬ strContains (dep_doc "tokio" "1.13.0" []) "[dev-dependencies]" ∧
    ¬ strContains (dev_dep_doc "tokio" "1.13.0" []) "[dependencies]" := by
  obtain ⟨h1, _, h3, h4⟩ := c6_headers "tokio" "1.13.0" []
  exact ⟨h1, h3 (by decide), h4 (by decide)⟩

theorem c10_layout_insensitive_witness :
    package_import_src "tokio" "1.13.0" [(.leaf "git", 0), (.leaf "=", 3)] =
      package_import_src "tokio" "1.13.0" [(.leaf "git", 7), (.leaf "=", 0)] :=
  c10_layout_insensitive.1 "tokio" "1.13.0"
    [(.leaf "git", 0), (.leaf "=", 3)] [(.leaf "git", 7), (.leaf "=", 0)] rfl

end DepDoc
